import Mathlib

/-!
Verification of the sidecar-less yapsy plugin discovery core
(`plugins.py`: classes `Analyzer`, `Locator`, `Manager`).

Shallow embedding notes:
* Paths are plain strings; `os.path.join` is modelled by `pjoin`,
  `os.path.abspath` as the identity (paths are taken as already absolute).
* A file system `FS` maps directory paths to their entry listings and
  regular-file paths to an abstract *load outcome*: loading a Python source
  either succeeds and yields a module (its double-underscore metadata
  attributes), raises an `ImportError` (unresolved import), or raises any
  other exception (syntax error, top-level exception, unreadable file,
  missing file, ...).  `Analyzer._loadModule` catches only `ImportError`,
  so the embedding distinguishes `importError` from `otherError`.
* Python exceptions that escape a function are modelled with
  `Except PyError`.
* The locator's per-file analyzer loop additionally records a ghost trace
  of events (`AEvent`): which analyzer index had `isValidPlugin` called,
  which had its info extraction called, and which emitted a candidate.
  The trace is pure instrumentation layered beside the source's control
  flow; it does not influence any computed result.
-/

namespace YapsyNoSidecar

/-- `os.path.join(d, f)` for the forward-slash paths used throughout. -/
def pjoin (d f : String) : String := d ++ "/" ++ f

/-- `os.path.abspath`, modelled as the identity: the embedding works with
already-absolute, already-normalised paths. -/
def abspath (p : String) : String := p

/-- Python `str.endswith(suffix)`, modelled over the character list so that
it is kernel-computable. -/
def endswith (s suffix : String) : Bool := suffix.data.isSuffixOf s.data

/-- Python slicing `s[:-n]`: drop the last `n` characters. -/
def sdropRight (s : String) (n : Nat) : String := ⟨s.data.take (s.data.length - n)⟩

/-- The module-level double-underscore metadata attributes a plugin module may
declare (`__plugin_name__` and friends); `none` models an absent attribute. -/
structure PyModule where
  plugin_name : Option String := none
  plugin_author : Option String := none
  plugin_version : Option String := none
  plugin_website : Option String := none
  plugin_copyright : Option String := none
  plugin_description : Option String := none
deriving DecidableEq, Repr

/-- What executing a file as a Python module does. -/
inductive LoadOutcome where
  /-- The module executes cleanly and exposes the given attributes. -/
  | ok (m : PyModule)
  /-- Loading raises `ImportError` (e.g. an unresolved import). -/
  | importError
  /-- Loading raises anything that is not an `ImportError`: syntax error,
  exception from top-level code, unreadable or missing file, ... -/
  | otherError
deriving DecidableEq, Repr

/-- An uncaught Python exception escaping the code under analysis. -/
inductive PyError where
  | uncaught
deriving DecidableEq, Repr

/-- The file-system snapshot a discovery pass runs against. -/
structure FS where
  /-- Directory path ↦ names of its immediate entries (files and subdirs). -/
  dirs : List (String × List String)
  /-- Regular-file path ↦ what loading it as Python would do.  Non-Python
  files are listed too (their outcome is never consulted by the analyzer
  because of its `.py` suffix gate). -/
  fileLoad : List (String × LoadOutcome)
deriving Repr

/-- `os.path.isdir`. -/
def FS.isdir (fs : FS) (p : String) : Bool := (fs.dirs.lookup p).isSome

/-- `os.listdir`. -/
def FS.listdir (fs : FS) (p : String) : List String := (fs.dirs.lookup p).getD []

/-- `os.path.isfile`. -/
def FS.isfile (fs : FS) (p : String) : Bool := (fs.fileLoad.lookup p).isSome

/-- Executing path `p` as a Python source file.  A path that is not a regular
file (missing, or a directory) raises an `OSError`, i.e. `otherError`. -/
def FS.loadPy (fs : FS) (p : String) : LoadOutcome :=
  (fs.fileLoad.lookup p).getD .otherError

namespace Analyzer

/-- `Analyzer._loadModule` (plugins.py lines 48-72): returns `none` for paths
not ending in `.py`; otherwise runs the file, returning the module on
success, `none` when load raises `ImportError` (the only exception the
`except` clause catches), and propagating every other exception. -/
def loadModule (fs : FS) (filepath : String) : Except PyError (Option PyModule) :=
  if endswith filepath (".py") then
    match fs.loadPy filepath with
    | .ok m => .ok (some m)
    | .importError => .ok none
    | .otherError => .error .uncaught
  else
    .ok none

/-- `Analyzer.isValidPlugin` (plugins.py lines 74-92): load the module and
check `getattr(themodule, '__plugin_name__', None) is not None`. -/
def isValidPlugin (fs : FS) (filename : String) : Except PyError Bool :=
  match loadModule fs filename with
  | .error e => .error e
  | .ok (some m) => .ok m.plugin_name.isSome
  | .ok none => .ok false

/-- The info dictionary built by `Analyzer.getInfosDictFromPlugin`. -/
structure InfosDict where
  name : String
  path : String
  author : String
  version : String
  website : String
  copyright : String
  description : String
deriving DecidableEq, Repr

/-- The empty `configparser.ConfigParser()` returned alongside the dict. -/
structure ConfigParser where
  sections : List String := []
deriving DecidableEq, Repr

/-- `Analyzer.getInfosDictFromPlugin` (plugins.py lines 94-126): re-load the
module at `os.path.join(dirpath, filename)` and read each metadata attribute
with `getattr(themodule, ..., '')`; when the load returned `None` every
`getattr` yields the default `''`.  A load exception other than
`ImportError` propagates out of `_loadModule`. -/
def getInfosDictFromPlugin (fs : FS) (dirpath filename : String) :
    Except PyError (InfosDict × ConfigParser) :=
  let module_path := pjoin dirpath filename
  match loadModule fs module_path with
  | .error e => .error e
  | .ok mopt =>
    .ok ({ name := ((mopt.bind (·.plugin_name)).getD ("")),
           path := module_path,
           author := ((mopt.bind (·.plugin_author)).getD ("")),
           version := ((mopt.bind (·.plugin_version)).getD ("")),
           website := ((mopt.bind (·.plugin_website)).getD ("")),
           copyright := ((mopt.bind (·.plugin_copyright)).getD ("")),
           description := ((mopt.bind (·.plugin_description)).getD ("")) },
         {})

end Analyzer

/-- The yapsy `PluginInfo` fields relevant to the locator: the declared name,
the declared path and the optional metadata. -/
structure PluginInfo where
  name : String
  path : String
  author : String := ""
  version : String := ""
  website : String := ""
  copyright : String := ""
  description : String := ""
deriving DecidableEq, Repr

/-- Modelled from the spec: the yapsy base-class helper
`PluginFileLocator._getInfoForPluginFromAnalyzer`, whose source is not part
of this repository, wraps an analyzer's `getInfosDictFromPlugin` result as a
`PluginInfo` and — "if extraction fails to produce usable info (metadata has
no name, or extraction signals failure)" — returns `None`; per the spec's
invariant, metadata without a (non-empty) name is discarded here. -/
def getInfoForPluginFromAnalyzer (d : Analyzer.InfosDict) : Option PluginInfo :=
  if d.name = "" then none
  else
    some { name := d.name, path := d.path, author := d.author,
           version := d.version, website := d.website,
           copyright := d.copyright, description := d.description }

/-- The analyzer capability as the locator consumes it: a validity check on a
full path, and the composite info extraction
`self._getInfoForPluginFromAnalyzer(analyzer, root, filename)` yielding
`none` when extraction fails to produce usable info. -/
structure PAnalyzer where
  isValidPlugin : FS → String → Except PyError Bool
  getInfoFor : FS → String → String → Except PyError (Option PluginInfo)

/-- The sidecar-less `Analyzer` packaged as a locator strategy. -/
def Analyzer.strategy : PAnalyzer where
  isValidPlugin := Analyzer.isValidPlugin
  getInfoFor := fun fs dirpath filename =>
    (Analyzer.getInfosDictFromPlugin fs dirpath filename).map
      (fun r => getInfoForPluginFromAnalyzer r.1)

/-- Ghost trace events for one file's trip through the analyzer loop:
analyzer `i` had `isValidPlugin` called, had its info extraction called, or
appended a candidate. -/
inductive AEvent where
  | validCheck (i : Nat)
  | extract (i : Nat)
  | emit (i : Nat)
deriving DecidableEq, Repr

/-- One entry of the `_candidates` list:
`(sidecar_path, plugin_path, plugin_info)`. -/
structure Candidate where
  sidecarPath : String
  pluginPath : String
  info : PluginInfo
deriving DecidableEq, Repr

/-- The mutable discovery state of one pass: the `_candidates` list and the
`_discovered` dict. -/
structure St where
  cands : List Candidate
  disc : List (String × String)
deriving DecidableEq, Repr

/-- Python dict assignment `m[k] = v` on an association list: update in place
when the key exists, else append. -/
def aset : List (String × String) → String → String → List (String × String)
  | [], k, v => [(k, v)]
  | (k', v') :: rest, k, v =>
    if k' = k then (k, v) :: rest else (k', v') :: aset rest k v

/-- Python `dict.update(upd)` applied to `base`. -/
def updateMap (base upd : List (String × String)) : List (String × String) :=
  upd.foldl (fun m kv => aset m kv.1 kv.2) base

/-- One `(root, dirnames, filenames)` triple as yielded by the walk. -/
structure Frame where
  root : String
  subdirs : List String
  files : List String
deriving DecidableEq, Repr

/-- An upper bound on the length of any directory path known to `fs`;
used only to justify termination of `walk`. -/
def FS.dirKeyBound (fs : FS) : Nat :=
  fs.dirs.foldr (fun p m => max p.1.length m) 0

/-- `os.walk(directory, followlinks=True)` in top-down order: each yielded
frame splits the directory's entries into subdirectories and non-directory
entries, then the walk descends into each subdirectory in listing order. -/
def walk (fs : FS) (d : String) : List Frame :=
  let entries := fs.listdir d
  let subdirs := entries.filter (fun e => fs.isdir (pjoin d e))
  let files := entries.filter (fun e => !(fs.isdir (pjoin d e)))
  ⟨d, subdirs, files⟩ :: subdirs.attach.flatMap (fun x => walk fs (pjoin d x.1))
termination_by fs.dirKeyBound + 1 - d.length
decreasing_by
  have hmem := x.2
  have hdir : fs.isdir (pjoin d x.1) = true := by
    have := List.mem_filter.mp hmem
    exact this.2
  have aux : ∀ (l : List (String × List String)) (q : String),
      (l.lookup q).isSome = true →
      q.length ≤ l.foldr (fun a m => max a.1.length m) 0 := by
    intro l
    induction l with
    | nil => intro q hq; simp [List.lookup] at hq
    | cons hd tl ih =>
      intro q hq
      rw [List.lookup] at hq
      by_cases hp : (q == hd.1) = true
      · have hpe : q = hd.1 := eq_of_beq hp
        simp only [List.foldr]
        rw [hpe]
        exact le_max_left _ _
      · rw [Bool.not_eq_true] at hp
        rw [hp] at hq
        simp only [List.foldr]
        exact le_trans (ih q hq) (le_max_right _ _)
  have h1 : (pjoin d x.1).length ≤ fs.dirKeyBound := aux fs.dirs _ hdir
  have h2 : (pjoin d x.1).length = d.length + 1 + x.1.length := by
    have hs : ("/" : String).length = 1 := rfl
    simp [pjoin, String.length_append, hs]
  omega

/-- The frames the locator iterates over for one search directory: the
recursive walk when `recursive` is set, else the single frame
`(directory, [], os.listdir(directory))` (plugins.py lines 165-170). -/
def walkFrames (fs : FS) (recursive : Bool) (d : String) : List Frame :=
  if recursive then walk fs d else [⟨d, [], fs.listdir d⟩]

/-- Per-file ghost trace: the file's `sidecar_path` paired with the events of
its trip through the analyzer loop, in one discovery pass. -/
abbrev Trace := List (String × List AEvent)

namespace Locator

/-- Step d of the package branch (plugins.py lines 208-212): register every
`.py` entry directly inside the package directory in `_discovered`, each
mapped to the package's `plugin_path`. -/
def registerPkg (fs : FS) (candidate_path plugin_path : String)
    (m : List (String × String)) : List (String × String) :=
  (fs.listdir candidate_path).foldl
    (fun acc f =>
      if endswith f (".py") then aset acc (pjoin candidate_path f) plugin_path else acc)
    m

/-- The per-file analyzer loop (plugins.py lines 177-227), over the suffix of
the analyzer list starting at configured index `i`.  Faithful control flow:
`continue` on an invalid or already-discovered file, `break` (stop the loop,
keep the state) when extraction returns no info or the candidate path is
unresolvable, and fall-through to the next analyzer after a candidate is
appended.  The returned event list is ghost instrumentation. -/
def procAnalyzers (fs : FS) (root filename sidecar : String) :
    Nat → List PAnalyzer → St → Except PyError (St × List AEvent)
  | _, [], st => .ok (st, [])
  | i, a :: rest, st =>
    match a.isValidPlugin fs sidecar with
    | .error e => .error e
    | .ok valid =>
      if valid = false then
        (procAnalyzers fs root filename sidecar (i + 1) rest st).map
          (fun r => (r.1, AEvent.validCheck i :: r.2))
      else if (st.disc.lookup sidecar).isSome then
        (procAnalyzers fs root filename sidecar (i + 1) rest st).map
          (fun r => (r.1, AEvent.validCheck i :: r.2))
      else
        match a.getInfoFor fs root filename with
        | .error e => .error e
        | .ok none => .ok (st, [AEvent.validCheck i, AEvent.extract i])
        | .ok (some pinfo) =>
          let candidate_path := pinfo.path
          if fs.isdir candidate_path then
            let plugin_path := pjoin candidate_path ("__init__")
            let disc1 := registerPkg fs candidate_path plugin_path st.disc
            let st1 : St :=
              ⟨st.cands ++ [⟨sidecar, plugin_path, pinfo⟩],
               aset disc1 sidecar plugin_path⟩
            (procAnalyzers fs root filename sidecar (i + 1) rest st1).map
              (fun r =>
                (r.1, AEvent.validCheck i :: AEvent.extract i :: AEvent.emit i :: r.2))
          else if (endswith pinfo.path (".py") && fs.isfile pinfo.path) ||
              fs.isfile (pinfo.path ++ ".py") then
            let plugin_path := candidate_path
            let disc1 :=
              if endswith plugin_path (".py") then
                aset st.disc plugin_path (sdropRight plugin_path 3)
              else
                aset st.disc plugin_path plugin_path
            let st1 : St :=
              ⟨st.cands ++ [⟨sidecar, plugin_path, pinfo⟩],
               aset disc1 sidecar plugin_path⟩
            (procAnalyzers fs root filename sidecar (i + 1) rest st1).map
              (fun r =>
                (r.1, AEvent.validCheck i :: AEvent.extract i :: AEvent.emit i :: r.2))
          else
            .ok (st, [AEvent.validCheck i, AEvent.extract i])

/-- The `for filename in files` loop of one frame (plugins.py lines 174-227);
threads the state through each file's analyzer loop and records one trace
entry per file. -/
def processFiles (fs : FS) (analyzers : List PAnalyzer) (root : String) :
    List String → St → Except PyError (St × Trace)
  | [], st => .ok (st, [])
  | f :: rest, st =>
    match procAnalyzers fs root f (pjoin root f) 0 analyzers st with
    | .error e => .error e
    | .ok (st1, evs) =>
      (processFiles fs analyzers root rest st1).map
        (fun r => (r.1, (pjoin root f, evs) :: r.2))

/-- The `for root, fldrs, files in walk_iter` loop (plugins.py line 173). -/
def processFrames (fs : FS) (analyzers : List PAnalyzer) :
    List Frame → St → Except PyError (St × Trace)
  | [], st => .ok (st, [])
  | fr :: rest, st =>
    match processFiles fs analyzers fr.root fr.files st with
    | .error e => .error e
    | .ok (st1, tr) =>
      (processFrames fs analyzers rest st1).map (fun r => (r.1, tr ++ r.2))

/-- The outer `for directory in map(os.path.abspath, self.plugins_places)`
loop (plugins.py lines 162-170): a place that is not a directory is skipped
(`continue`); otherwise its frames are traversed. -/
def processPlaces (fs : FS) (recursive : Bool) (analyzers : List PAnalyzer) :
    List String → St → Except PyError (St × Trace)
  | [], st => .ok (st, [])
  | p :: rest, st =>
    let d := abspath p
    if fs.isdir d = false then
      processPlaces fs recursive analyzers rest st
    else
      match processFrames fs analyzers (walkFrames fs recursive d) st with
      | .error e => .error e
      | .ok (st1, tr) =>
        (processPlaces fs recursive analyzers rest st1).map
          (fun r => (r.1, tr ++ r.2))

/-- One discovery pass starting from the fresh `_candidates = []` and
`_discovered = {}` of plugins.py lines 159-160. -/
def locateCore (fs : FS) (places : List String) (recursive : Bool)
    (analyzers : List PAnalyzer) : Except PyError (St × Trace) :=
  processPlaces fs recursive analyzers places ⟨[], []⟩

/-- What `Locator.locatePlugins` produces: the candidate list, the returned
count, the updated persistent `self._discovered_plugins`, and the ghost
trace. -/
structure LocResult where
  cands : List Candidate
  count : Nat
  discoveredPlugins : List (String × String)
  trace : Trace
deriving DecidableEq, Repr

/-- `Locator.locatePlugins` (plugins.py lines 146-229).  `persist` is the
instance's `self._discovered_plugins` before the call; the method never reads
it, and at the end merges the pass-local `_discovered` into it
(line 228) and returns `(_candidates, len(_candidates))` (line 229). -/
def locatePlugins (fs : FS) (places : List String) (recursive : Bool)
    (analyzers : List PAnalyzer) (persist : List (String × String)) :
    Except PyError LocResult :=
  (locateCore fs places recursive analyzers).map
    (fun r => ⟨r.1.cands, r.1.cands.length, updateMap persist r.1.disc, r.2⟩)

end Locator

/-- An analyzer strategy whose successful extractions always carry a
non-empty plugin name (on the given file system). -/
def WellNamed (fs : FS) (a : PAnalyzer) : Prop :=
  ∀ root f pinfo, a.getInfoFor fs root f = .ok (some pinfo) → pinfo.name ≠ ""

/-! ### Concrete file-system fixtures used by witnesses and counterexamples -/

/-- One plugin directory with a `.py` file whose load raises a
non-`ImportError` exception (syntax error / unreadable file / top-level
exception). -/
def fsOther : FS :=
  ⟨[("/plugs", ["u.py"])], [("/plugs/u.py", .otherError)]⟩

/-- One plugin directory with a well-formed single-file plugin. -/
def fsOk : FS :=
  ⟨[("/plugs", ["a.py"])],
   [("/plugs/a.py", .ok { plugin_name := some ("Alpha"), plugin_author := some ("Matt") })]⟩

/-- A module that declares `__plugin_name__ = ''` (present but empty). -/
def fsEmptyName : FS :=
  ⟨[("/plugs", ["e.py"])], [("/plugs/e.py", .ok { plugin_name := some ("") })]⟩

/-- A module whose load raises `ImportError`. -/
def fsImp : FS :=
  ⟨[("/plugs", ["i.py"])], [("/plugs/i.py", .importError)]⟩

/-- A directory mixing a plugin file, a subdirectory and a text file. -/
def fsMix : FS :=
  ⟨[("/plugs", ["a.py", "sub", "t.txt"]), ("/plugs/sub", ["x.py"])],
   [("/plugs/a.py", .ok { plugin_name := some ("Alpha") }),
    ("/plugs/t.txt", .ok {}),
    ("/plugs/sub/x.py", .ok {})]⟩

/-- Non-code content only: a text file and an empty directory. -/
def fsTxt : FS :=
  ⟨[("/plugs", ["readme.txt"]), ("/empty", [])], [("/plugs/readme.txt", .ok {})]⟩

/-- A sidecar-described package: an info file next to a package directory
holding the entry point, a helper module and a stray text file. -/
def fsPkg : FS :=
  ⟨[("/plugs", ["pkg.plugin-info"]),
    ("/plugs/pkg", ["__init__.py", "helper.py", "notes.txt"])],
   [("/plugs/pkg.plugin-info", .ok {}),
    ("/plugs/pkg/__init__.py", .ok { plugin_name := some ("Pkg") }),
    ("/plugs/pkg/helper.py", .ok {}),
    ("/plugs/pkg/notes.txt", .ok {})]⟩

/-- A toy second strategy (stands in for the sidecar info-file analyzer):
recognises every file and extracts metadata pointing at the file itself. -/
def toyB : PAnalyzer where
  isValidPlugin := fun _ _ => .ok true
  getInfoFor := fun _ root f => .ok (some { name := "Beta", path := pjoin root f })

/-- A toy strategy that never recognises a file. -/
def toyFalse : PAnalyzer where
  isValidPlugin := fun _ _ => .ok false
  getInfoFor := fun _ _ _ => .ok none

/-- A toy strategy that recognises every file but whose extraction fails to
produce usable info. -/
def toyNone : PAnalyzer where
  isValidPlugin := fun _ _ => .ok true
  getInfoFor := fun _ _ _ => .ok none

/-- A toy strategy that recognises every file and resolves it to the package
directory `/plugs/pkg`. -/
def toyDir : PAnalyzer where
  isValidPlugin := fun _ _ => .ok true
  getInfoFor := fun _ _ _ => .ok (some { name := "Pkg", path := "/plugs/pkg" })

/-- The `PluginInfo` the sidecar-less strategy extracts from `fsOk`'s
`/plugs/a.py`. -/
def infoAlpha : PluginInfo :=
  { name := "Alpha", path := "/plugs/a.py", author := "Matt" }

/-- The `PluginInfo` extracted by `toyDir`. -/
def infoPkg : PluginInfo := { name := "Pkg", path := "/plugs/pkg" }

/-- The candidate discovery emits for `fsOk`'s `/plugs/a.py`. -/
def candAlpha : Candidate := ⟨"/plugs/a.py", "/plugs/a.py", infoAlpha⟩

/-- The full result of one non-recursive pass over `fsOk` with the
sidecar-less strategy alone. -/
def rOk : Locator.LocResult :=
  ⟨[candAlpha], 1, [("/plugs/a.py", "/plugs/a.py")],
   [("/plugs/a.py", [AEvent.validCheck 0, AEvent.extract 0, AEvent.emit 0])]⟩

/-- The full result of one non-recursive pass over `fsEmptyName` with the
sidecar-less strategy alone: no candidate survives. -/
def rEmpty : Locator.LocResult :=
  ⟨[], 0, [], [("/plugs/e.py", [AEvent.validCheck 0, AEvent.extract 0])]⟩

/-! ### Supporting lemmas -/

theorem aset_lookup_self (m : List (String × String)) (k v : String) :
    ((aset m k v).lookup k) = some v := by
  induction m with
  | nil => simp [aset, List.lookup]
  | cons hd tl ih =>
    rcases hd with ⟨k', v'⟩
    by_cases h : k' = k
    · subst h
      simp [aset, List.lookup]
    · have hb : (k == k') = false := by
        rw [beq_eq_false_iff_ne]
        exact fun hh => h hh.symm
      simp only [aset, if_neg h, List.lookup, hb]
      exact ih

theorem aset_lookup_ne (m : List (String × String)) (k v k' : String) (h : k' ≠ k) :
    ((aset m k v).lookup k') = m.lookup k' := by
  induction m with
  | nil =>
    have hb : (k' == k) = false := by
      rw [beq_eq_false_iff_ne]
      exact h
    simp [aset, List.lookup, hb]
  | cons hd tl ih =>
    rcases hd with ⟨k0, v0⟩
    by_cases h0 : k0 = k
    · subst h0
      have hb : (k' == k0) = false := by
        rw [beq_eq_false_iff_ne]
        exact h
      simp [aset, List.lookup, hb]
    · simp only [aset, if_neg h0, List.lookup]
      by_cases hk : (k' == k0) = true
      · rw [hk]
      · rw [Bool.not_eq_true] at hk
        rw [hk]
        exact ih

theorem aset_lookup_keep (m : List (String × String)) (k v k' : String)
    (h : m.lookup k' = some v) : ((aset m k v).lookup k') = some v := by
  by_cases hk : k' = k
  · subst hk
    exact aset_lookup_self m k' v
  · rw [aset_lookup_ne m k v k' hk]
    exact h

theorem foldreg_keep (D pp k : String) :
    ∀ (l : List String) (m : List (String × String)), m.lookup k = some pp →
      ((l.foldl (fun acc f =>
          if endswith f (".py") then aset acc (pjoin D f) pp else acc) m).lookup k)
        = some pp := by
  intro l
  induction l with
  | nil => intro m h; exact h
  | cons hd tl ih =>
    intro m h
    simp only [List.foldl]
    by_cases hp : endswith hd (".py") = true
    · rw [hp]
      simp only [if_true]
      exact ih _ (aset_lookup_keep m (pjoin D hd) pp k h)
    · rw [Bool.not_eq_true] at hp
      rw [hp]
      simp only [Bool.false_eq_true, if_false]
      exact ih _ h

theorem foldreg_mem (D pp f : String) (hf : endswith f (".py") = true) :
    ∀ (l : List String) (m : List (String × String)), f ∈ l →
      ((l.foldl (fun acc g =>
          if endswith g (".py") then aset acc (pjoin D g) pp else acc) m).lookup (pjoin D f))
        = some pp := by
  intro l
  induction l with
  | nil => intro m h; simp at h
  | cons hd tl ih =>
    intro m hmem
    rcases List.mem_cons.mp hmem with heq | htl
    · subst heq
      simp only [List.foldl, hf, if_true]
      exact foldreg_keep D pp (pjoin D f) tl _ (aset_lookup_self m (pjoin D f) pp)
    · simp only [List.foldl]
      by_cases hp : endswith hd (".py") = true
      · rw [hp]
        simp only [if_true]
        exact ih _ htl
      · rw [Bool.not_eq_true] at hp
        rw [hp]
        simp only [Bool.false_eq_true, if_false]
        exact ih _ htl

theorem registerPkg_keep (fs : FS) (D pp k : String) (m : List (String × String))
    (h : m.lookup k = some pp) : ((Locator.registerPkg fs D pp m).lookup k) = some pp :=
  foldreg_keep D pp k (fs.listdir D) m h

theorem registerPkg_mem (fs : FS) (D pp f : String) (m : List (String × String))
    (hmem : f ∈ fs.listdir D) (hf : endswith f (".py") = true) :
    ((Locator.registerPkg fs D pp m).lookup (pjoin D f)) = some pp :=
  foldreg_mem D pp f hf (fs.listdir D) m hmem

/-! Branch equations of the per-file analyzer loop. -/

theorem procAnalyzers_nil (fs : FS) (root f sc : String) (i : Nat) (st : St) :
    Locator.procAnalyzers fs root f sc i [] st = .ok (st, []) := rfl

theorem procAnalyzers_cons_invalid (fs : FS) (root f sc : String) (i : Nat)
    (a : PAnalyzer) (rest : List PAnalyzer) (st : St)
    (h : a.isValidPlugin fs sc = .ok false) :
    Locator.procAnalyzers fs root f sc i (a :: rest) st =
      (Locator.procAnalyzers fs root f sc (i + 1) rest st).map
        (fun r => (r.1, AEvent.validCheck i :: r.2)) := by
  simp [Locator.procAnalyzers, h]

theorem procAnalyzers_cons_discovered (fs : FS) (root f sc : String) (i : Nat)
    (a : PAnalyzer) (rest : List PAnalyzer) (st : St)
    (h1 : a.isValidPlugin fs sc = .ok true)
    (h2 : (st.disc.lookup sc).isSome = true) :
    Locator.procAnalyzers fs root f sc i (a :: rest) st =
      (Locator.procAnalyzers fs root f sc (i + 1) rest st).map
        (fun r => (r.1, AEvent.validCheck i :: r.2)) := by
  simp [Locator.procAnalyzers, h1, h2]

theorem procAnalyzers_cons_break (fs : FS) (root f sc : String) (i : Nat)
    (a : PAnalyzer) (rest : List PAnalyzer) (st : St)
    (h1 : a.isValidPlugin fs sc = .ok true)
    (h2 : st.disc.lookup sc = none)
    (h3 : a.getInfoFor fs root f = .ok none) :
    Locator.procAnalyzers fs root f sc i (a :: rest) st =
      .ok (st, [AEvent.validCheck i, AEvent.extract i]) := by
  simp [Locator.procAnalyzers, h1, h2, h3]

theorem procAnalyzers_cons_dir (fs : FS) (root f sc : String) (i : Nat)
    (a : PAnalyzer) (rest : List PAnalyzer) (st : St) (pinfo : PluginInfo)
    (h1 : a.isValidPlugin fs sc = .ok true)
    (h2 : st.disc.lookup sc = none)
    (h3 : a.getInfoFor fs root f = .ok (some pinfo))
    (h4 : fs.isdir pinfo.path = true) :
    Locator.procAnalyzers fs root f sc i (a :: rest) st =
      (Locator.procAnalyzers fs root f sc (i + 1) rest
          ⟨st.cands ++ [⟨sc, pjoin pinfo.path ("__init__"), pinfo⟩],
           aset (Locator.registerPkg fs pinfo.path (pjoin pinfo.path ("__init__")) st.disc)
             sc (pjoin pinfo.path ("__init__"))⟩).map
        (fun r =>
          (r.1, AEvent.validCheck i :: AEvent.extract i :: AEvent.emit i :: r.2)) := by
  simp [Locator.procAnalyzers, h1, h2, h3, h4]

theorem procAnalyzers_cons_file (fs : FS) (root f sc : String) (i : Nat)
    (a : PAnalyzer) (rest : List PAnalyzer) (st : St) (pinfo : PluginInfo)
    (h1 : a.isValidPlugin fs sc = .ok true)
    (h2 : st.disc.lookup sc = none)
    (h3 : a.getInfoFor fs root f = .ok (some pinfo))
    (h4 : fs.isdir pinfo.path = false)
    (h5 : ((endswith pinfo.path (".py") && fs.isfile pinfo.path) ||
            fs.isfile (pinfo.path ++ ".py")) = true) :
    Locator.procAnalyzers fs root f sc i (a :: rest) st =
      (Locator.procAnalyzers fs root f sc (i + 1) rest
          ⟨st.cands ++ [⟨sc, pinfo.path, pinfo⟩],
           aset (if endswith pinfo.path (".py") then
                   aset st.disc pinfo.path (sdropRight pinfo.path 3)
                 else
                   aset st.disc pinfo.path pinfo.path)
             sc pinfo.path⟩).map
        (fun r =>
          (r.1, AEvent.validCheck i :: AEvent.extract i :: AEvent.emit i :: r.2)) := by
  simp [Locator.procAnalyzers, h1, h2, h3, h4, h5]

theorem procAnalyzers_cons_unresolvable (fs : FS) (root f sc : String) (i : Nat)
    (a : PAnalyzer) (rest : List PAnalyzer) (st : St) (pinfo : PluginInfo)
    (h1 : a.isValidPlugin fs sc = .ok true)
    (h2 : st.disc.lookup sc = none)
    (h3 : a.getInfoFor fs root f = .ok (some pinfo))
    (h4 : fs.isdir pinfo.path = false)
    (h5 : ((endswith pinfo.path (".py") && fs.isfile pinfo.path) ||
            fs.isfile (pinfo.path ++ ".py")) = false) :
    Locator.procAnalyzers fs root f sc i (a :: rest) st =
      .ok (st, [AEvent.validCheck i, AEvent.extract i]) := by
  simp [Locator.procAnalyzers, h1, h2, h3, h4, h5]

theorem procAnalyzers_cons_validError (fs : FS) (root f sc : String) (i : Nat)
    (a : PAnalyzer) (rest : List PAnalyzer) (st : St) (e : PyError)
    (h : a.isValidPlugin fs sc = .error e) :
    Locator.procAnalyzers fs root f sc i (a :: rest) st = .error e := by
  simp [Locator.procAnalyzers, h]

theorem procAnalyzers_cons_extractError (fs : FS) (root f sc : String) (i : Nat)
    (a : PAnalyzer) (rest : List PAnalyzer) (st : St) (e : PyError)
    (h1 : a.isValidPlugin fs sc = .ok true)
    (h2 : st.disc.lookup sc = none)
    (h3 : a.getInfoFor fs root f = .error e) :
    Locator.procAnalyzers fs root f sc i (a :: rest) st = .error e := by
  simp [Locator.procAnalyzers, h1, h2, h3]

/-- `Analyzer.isValidPlugin` is false without raising on any path that does
not end in `.py` (the load is never attempted). -/
theorem isValidPlugin_not_py (fs : FS) (p : String)
    (h : endswith p (".py") = false) :
    Analyzer.isValidPlugin fs p = .ok false := by
  simp [Analyzer.isValidPlugin, Analyzer.loadModule, h]

/-- Inverting `Except.map` of an event-prepending function at an `ok`. -/
theorem exceptMap_ok_inv (g : List AEvent → List AEvent)
    {p : Except PyError (St × List AEvent)} {st' : St} {evs : List AEvent}
    (h : (p.map (fun r => (r.1, g r.2))) = .ok (st', evs)) :
    ∃ evs0, p = .ok (st', evs0) ∧ evs = g evs0 := by
  cases p with
  | error e => simp [Except.map] at h
  | ok q =>
    rcases q with ⟨stR, evsR⟩
    simp [Except.map] at h
    exact ⟨evsR, by simp [h.1], h.2.symm⟩

/-! Equation lemmas for the file, frame and place loops. -/

theorem processFiles_nil (fs : FS) (analyzers : List PAnalyzer) (root : String)
    (st : St) : Locator.processFiles fs analyzers root [] st = .ok (st, []) := rfl

theorem processFiles_cons_ok (fs : FS) (analyzers : List PAnalyzer)
    (root f : String) (rest : List String) (st st1 : St) (evs : List AEvent)
    (h : Locator.procAnalyzers fs root f (pjoin root f) 0 analyzers st =
      .ok (st1, evs)) :
    Locator.processFiles fs analyzers root (f :: rest) st =
      (Locator.processFiles fs analyzers root rest st1).map
        (fun r => (r.1, (pjoin root f, evs) :: r.2)) := by
  simp [Locator.processFiles, h]

theorem processFiles_cons_err (fs : FS) (analyzers : List PAnalyzer)
    (root f : String) (rest : List String) (st : St) (e : PyError)
    (h : Locator.procAnalyzers fs root f (pjoin root f) 0 analyzers st =
      .error e) :
    Locator.processFiles fs analyzers root (f :: rest) st = .error e := by
  simp [Locator.processFiles, h]

theorem processFrames_nil (fs : FS) (analyzers : List PAnalyzer) (st : St) :
    Locator.processFrames fs analyzers [] st = .ok (st, []) := rfl

theorem processFrames_cons_ok (fs : FS) (analyzers : List PAnalyzer)
    (fr : Frame) (rest : List Frame) (st st1 : St) (tr : Trace)
    (h : Locator.processFiles fs analyzers fr.root fr.files st = .ok (st1, tr)) :
    Locator.processFrames fs analyzers (fr :: rest) st =
      (Locator.processFrames fs analyzers rest st1).map
        (fun r => (r.1, tr ++ r.2)) := by
  simp [Locator.processFrames, h]

theorem processFrames_cons_err (fs : FS) (analyzers : List PAnalyzer)
    (fr : Frame) (rest : List Frame) (st : St) (e : PyError)
    (h : Locator.processFiles fs analyzers fr.root fr.files st = .error e) :
    Locator.processFrames fs analyzers (fr :: rest) st = .error e := by
  simp [Locator.processFrames, h]

theorem processPlaces_nil (fs : FS) (recursive : Bool)
    (analyzers : List PAnalyzer) (st : St) :
    Locator.processPlaces fs recursive analyzers [] st = .ok (st, []) := rfl

theorem processPlaces_skip (fs : FS) (recursive : Bool)
    (analyzers : List PAnalyzer) (p : String) (rest : List String) (st : St)
    (h : fs.isdir (abspath p) = false) :
    Locator.processPlaces fs recursive analyzers (p :: rest) st =
      Locator.processPlaces fs recursive analyzers rest st := by
  simp [Locator.processPlaces, h]

theorem processPlaces_cons_ok (fs : FS) (recursive : Bool)
    (analyzers : List PAnalyzer) (p : String) (rest : List String)
    (st st1 : St) (tr : Trace)
    (h1 : fs.isdir (abspath p) = true)
    (h2 : Locator.processFrames fs analyzers
        (walkFrames fs recursive (abspath p)) st = .ok (st1, tr)) :
    Locator.processPlaces fs recursive analyzers (p :: rest) st =
      (Locator.processPlaces fs recursive analyzers rest st1).map
        (fun r => (r.1, tr ++ r.2)) := by
  simp [Locator.processPlaces, h1, h2]

theorem processPlaces_cons_err (fs : FS) (recursive : Bool)
    (analyzers : List PAnalyzer) (p : String) (rest : List String) (st : St)
    (e : PyError)
    (h1 : fs.isdir (abspath p) = true)
    (h2 : Locator.processFrames fs analyzers
        (walkFrames fs recursive (abspath p)) st = .error e) :
    Locator.processPlaces fs recursive analyzers (p :: rest) st = .error e := by
  simp [Locator.processPlaces, h1, h2]

/-! ### C1 -/

/-- C1 counterexample: the claim says every load failure of any kind yields
`false` without propagating, but `_loadModule` catches only `ImportError`;
on `/plugs/u.py`, whose load raises a non-`ImportError` exception (syntax
error / top-level exception / unreadable file), `isValidPlugin` propagates
the exception instead of returning false. -/
theorem c1_counterexample :
    Analyzer.isValidPlugin fsOther ("/plugs/u.py") = .error .uncaught := rfl

/-- C1 (amended): `isValidPlugin(p)` returns false immediately when `p` does
not end in `.py`; a load failing with `ImportError` (unresolved import)
yields false without propagating; but any other load failure (syntax error,
exception raised by top-level code) propagates to the caller; a successful
load answers whether `__plugin_name__` is present. -/
theorem c1_isValidPlugin_behavior : ∀ (fs : FS) (p : String),
    (endswith p (".py") = false → Analyzer.isValidPlugin fs p = .ok false) ∧
    (fs.loadPy p = .importError → Analyzer.isValidPlugin fs p = .ok false) ∧
    (endswith p (".py") = true → fs.loadPy p = .otherError →
      Analyzer.isValidPlugin fs p = .error .uncaught) ∧
    (∀ m : PyModule, endswith p (".py") = true → fs.loadPy p = .ok m →
      Analyzer.isValidPlugin fs p = .ok m.plugin_name.isSome) := by
  intro fs p
  refine ⟨fun h => isValidPlugin_not_py fs p h, ?_, ?_, ?_⟩
  · intro h
    by_cases hp : endswith p (".py") = true
    · simp [Analyzer.isValidPlugin, Analyzer.loadModule, hp, h]
    · rw [Bool.not_eq_true] at hp
      exact isValidPlugin_not_py fs p hp
  · intro hp h
    simp [Analyzer.isValidPlugin, Analyzer.loadModule, hp, h]
  · intro m hp h
    simp [Analyzer.isValidPlugin, Analyzer.loadModule, hp, h]

/-- C1 witness: the amended behaviour at concrete inputs — a `.txt` path, an
`ImportError` module, a non-`ImportError` failure, and a clean module
declaring a name. -/
theorem c1_witness :
    Analyzer.isValidPlugin fsOk ("/plugs/readme.txt") = .ok false ∧
    Analyzer.isValidPlugin fsImp ("/plugs/i.py") = .ok false ∧
    Analyzer.isValidPlugin fsOther ("/plugs/u.py") = .error .uncaught ∧
    Analyzer.isValidPlugin fsOk ("/plugs/a.py") = .ok true := by
  refine ⟨?_, ?_, ?_, ?_⟩
  · exact (c1_isValidPlugin_behavior fsOk ("/plugs/readme.txt")).1 (by decide)
  · exact (c1_isValidPlugin_behavior fsImp ("/plugs/i.py")).2.1 (by decide)
  · exact (c1_isValidPlugin_behavior fsOther ("/plugs/u.py")).2.2.1 (by decide) (by decide)
  · have h := (c1_isValidPlugin_behavior fsOk ("/plugs/a.py")).2.2.2
      { plugin_name := some ("Alpha"), plugin_author := some ("Matt") }
      (by decide) (by decide)
    simpa using h

/-! ### C9 -/

/-- C9: when the joined path names a `.py` file whose load raises
`ImportError`, `getInfosDictFromPlugin` does not raise: it returns the
metadata dictionary with empty name and empty optional fields, the joined
path as `path`, and an empty config parser. -/
theorem c9_getInfos_importError : ∀ (fs : FS) (d f : String),
    endswith (pjoin d f) (".py") = true →
    fs.loadPy (pjoin d f) = .importError →
    Analyzer.getInfosDictFromPlugin fs d f =
      .ok ({ name := "", path := pjoin d f, author := "", version := "",
             website := "", copyright := "", description := "" }, {}) := by
  intro fs d f hp h
  simp [Analyzer.getInfosDictFromPlugin, Analyzer.loadModule, hp, h]

/-- C9 witness: the theorem applied to `fsImp`'s `/plugs/i.py`. -/
theorem c9_witness :
    Analyzer.getInfosDictFromPlugin fsImp ("/plugs") ("i.py") =
      .ok ({ name := "", path := pjoin ("/plugs") ("i.py"), author := "",
             version := "", website := "", copyright := "",
             description := "" }, {}) :=
  c9_getInfos_importError fsImp ("/plugs") ("i.py") (by decide) (by decide)

/-! ### C2 -/

/-- C2 counterexample: for the single-file plugin `/plugs/a.py` the claim
requires the emitted candidate's executable path to be the suffix-stripped
`/plugs/a`, never ending in `.py`; the code stores `candidate_path`
unchanged, so the emitted executable path is `/plugs/a.py` and does end in
`.py`. -/
theorem c2_counterexample :
    (Locator.locatePlugins fsOk (["/plugs"]) false [Analyzer.strategy] []).map
        (fun r => r.cands.map (fun c => (c.pluginPath, endswith c.pluginPath (".py"))))
      = .ok [("/plugs/a.py", true)] := rfl

/-- C2 (amended): for a candidate resolved as a single-file plugin, the
executable path stored in the emitted candidate equals `candidatePath`
*unchanged* (it keeps a trailing `.py`); only the `_discovered` map entry
keyed by `candidatePath` receives the suffix-stripped value. -/
theorem c2_singlefile_path_unstripped : ∀ (fs : FS) (root f sc : String) (i : Nat)
    (a : PAnalyzer) (rest : List PAnalyzer) (st : St) (pinfo : PluginInfo),
    a.isValidPlugin fs sc = .ok true →
    st.disc.lookup sc = none →
    a.getInfoFor fs root f = .ok (some pinfo) →
    fs.isdir pinfo.path = false →
    ((endswith pinfo.path (".py") && fs.isfile pinfo.path) ||
      fs.isfile (pinfo.path ++ ".py")) = true →
    Locator.procAnalyzers fs root f sc i (a :: rest) st =
      (Locator.procAnalyzers fs root f sc (i + 1) rest
          ⟨st.cands ++ [⟨sc, pinfo.path, pinfo⟩],
           aset (if endswith pinfo.path (".py") then
                   aset st.disc pinfo.path (sdropRight pinfo.path 3)
                 else
                   aset st.disc pinfo.path pinfo.path)
             sc pinfo.path⟩).map
        (fun r =>
          (r.1, AEvent.validCheck i :: AEvent.extract i :: AEvent.emit i :: r.2)) :=
  fun fs root f sc i a rest st pinfo h1 h2 h3 h4 h5 =>
    procAnalyzers_cons_file fs root f sc i a rest st pinfo h1 h2 h3 h4 h5

/-- C2 witness: the amended statement instantiated on `fsOk` with the
sidecar-less strategy resolving `/plugs/a.py`. -/
theorem c2_witness :
    Locator.procAnalyzers fsOk ("/plugs") ("a.py") ("/plugs/a.py") 0
        [Analyzer.strategy] ⟨[], []⟩ =
      (Locator.procAnalyzers fsOk ("/plugs") ("a.py") ("/plugs/a.py") (0 + 1) []
          ⟨[] ++ [⟨"/plugs/a.py", infoAlpha.path, infoAlpha⟩],
           aset (if endswith infoAlpha.path (".py") then
                   aset [] infoAlpha.path (sdropRight infoAlpha.path 3)
                 else
                   aset [] infoAlpha.path infoAlpha.path)
             ("/plugs/a.py") infoAlpha.path⟩).map
        (fun r =>
          (r.1, AEvent.validCheck 0 :: AEvent.extract 0 :: AEvent.emit 0 :: r.2)) :=
  c2_singlefile_path_unstripped fsOk ("/plugs") ("a.py") ("/plugs/a.py") 0
    Analyzer.strategy [] ⟨[], []⟩ infoAlpha rfl rfl rfl (by decide) (by decide)

/-! ### C7 -/

/-- C7: when a claimed candidate's declared path is a directory, the loop
appends exactly one candidate for it — whose executable path is the
directory's entry point `__init__.py` with the source suffix removed, i.e.
`candidatePath/__init__` — and registers every `.py` entry directly inside
the directory in `_discovered`, each mapped to that executable path (the
matched sidecar path is registered as well); the number of source files in
the directory never changes the single appended candidate. -/
theorem c7_package_branch : ∀ (fs : FS) (root f sc : String) (i : Nat)
    (a : PAnalyzer) (rest : List PAnalyzer) (st : St) (pinfo : PluginInfo),
    a.isValidPlugin fs sc = .ok true →
    st.disc.lookup sc = none →
    a.getInfoFor fs root f = .ok (some pinfo) →
    fs.isdir pinfo.path = true →
    ∃ st' : St,
      Locator.procAnalyzers fs root f sc i (a :: rest) st =
        (Locator.procAnalyzers fs root f sc (i + 1) rest st').map
          (fun r =>
            (r.1, AEvent.validCheck i :: AEvent.extract i :: AEvent.emit i :: r.2)) ∧
      st'.cands = st.cands ++ [⟨sc, pjoin pinfo.path ("__init__"), pinfo⟩] ∧
      (∀ g ∈ fs.listdir pinfo.path, endswith g (".py") = true →
        st'.disc.lookup (pjoin pinfo.path g) = some (pjoin pinfo.path ("__init__"))) ∧
      st'.disc.lookup sc = some (pjoin pinfo.path ("__init__")) := by
  intro fs root f sc i a rest st pinfo h1 h2 h3 h4
  refine ⟨⟨st.cands ++ [⟨sc, pjoin pinfo.path ("__init__"), pinfo⟩],
           aset (Locator.registerPkg fs pinfo.path (pjoin pinfo.path ("__init__")) st.disc)
             sc (pjoin pinfo.path ("__init__"))⟩,
         procAnalyzers_cons_dir fs root f sc i a rest st pinfo h1 h2 h3 h4,
         rfl, ?_, ?_⟩
  · intro g hg hgpy
    by_cases hsc : pjoin pinfo.path g = sc
    · rw [hsc]
      exact aset_lookup_self _ _ _
    · rw [aset_lookup_ne _ _ _ _ hsc]
      exact registerPkg_mem fs pinfo.path (pjoin pinfo.path ("__init__")) g st.disc hg hgpy
  · exact aset_lookup_self _ _ _

/-- C7 witness: the sidecar file `/plugs/pkg.plugin-info` of `fsPkg` resolves
(via `toyDir`) to the package directory `/plugs/pkg`, which contains two
`.py` files and a text file. -/
theorem c7_witness :
    ∃ st' : St,
      Locator.procAnalyzers fsPkg ("/plugs") ("pkg.plugin-info")
          ("/plugs/pkg.plugin-info") 0 (toyDir :: []) ⟨[], []⟩ =
        (Locator.procAnalyzers fsPkg ("/plugs") ("pkg.plugin-info")
            ("/plugs/pkg.plugin-info") (0 + 1) [] st').map
          (fun r =>
            (r.1, AEvent.validCheck 0 :: AEvent.extract 0 :: AEvent.emit 0 :: r.2)) ∧
      st'.cands = [] ++ [⟨"/plugs/pkg.plugin-info", pjoin infoPkg.path ("__init__"), infoPkg⟩] ∧
      (∀ g ∈ fsPkg.listdir infoPkg.path, endswith g (".py") = true →
        st'.disc.lookup (pjoin infoPkg.path g) = some (pjoin infoPkg.path ("__init__"))) ∧
      st'.disc.lookup ("/plugs/pkg.plugin-info") = some (pjoin infoPkg.path ("__init__")) :=
  c7_package_branch fsPkg ("/plugs") ("pkg.plugin-info") ("/plugs/pkg.plugin-info") 0
    toyDir [] ⟨[], []⟩ infoPkg rfl rfl rfl (by decide)

/-! ### C4 -/

/-- C4 counterexample: with the sidecar-less strategy configured before a
second always-recognising strategy, the first analyzer claims `/plugs/a.py`
(events `validCheck 0, extract 0, emit 0`), yet the second analyzer's
`isValidPlugin` is still consulted afterwards for the same file in the same
pass (event `validCheck 1` after `emit 0`), contradicting the claim that
once one analyzer has claimed a file no other analyzer is consulted for it. -/
theorem c4_counterexample :
    (Locator.locatePlugins fsOk (["/plugs"]) false [Analyzer.strategy, toyB] []).map
        (fun r => r.trace)
      = .ok [("/plugs/a.py",
              [AEvent.validCheck 0, AEvent.extract 0, AEvent.emit 0,
               AEvent.validCheck 1])] := rfl

/-- C4 (amended): when an analyzer claims a file by definitive extraction
failure, the per-file loop stops at once — no later analyzer is consulted at
all; when an analyzer claims a file by emitting a candidate, later analyzers
still have `isValidPlugin` invoked on the file, but the `_discovered` check
prevents any further extraction or emission, so when two analyzers would
both recognize a file exactly one candidate is produced, carrying the first
analyzer's extraction. -/
theorem c4_precedence_amended :
    (∀ (fs : FS) (root f sc : String) (i : Nat) (a : PAnalyzer)
        (rest : List PAnalyzer) (st : St),
      a.isValidPlugin fs sc = .ok true →
      st.disc.lookup sc = none →
      a.getInfoFor fs root f = .ok none →
      Locator.procAnalyzers fs root f sc i (a :: rest) st =
        .ok (st, [AEvent.validCheck i, AEvent.extract i])) ∧
    (∀ (fs : FS) (root f sc : String) (a b : PAnalyzer) (st : St)
        (pa : PluginInfo),
      a.isValidPlugin fs sc = .ok true →
      b.isValidPlugin fs sc = .ok true →
      st.disc.lookup sc = none →
      a.getInfoFor fs root f = .ok (some pa) →
      (fs.isdir pa.path = true ∨
        (fs.isdir pa.path = false ∧
          ((endswith pa.path (".py") && fs.isfile pa.path) ||
            fs.isfile (pa.path ++ ".py")) = true)) →
      ∃ (st' : St) (pp : String),
        Locator.procAnalyzers fs root f sc 0 [a, b] st =
          .ok (st', [AEvent.validCheck 0, AEvent.extract 0, AEvent.emit 0,
                     AEvent.validCheck 1]) ∧
        st'.cands = st.cands ++ [⟨sc, pp, pa⟩]) := by
  constructor
  · intro fs root f sc i a rest st h1 h2 h3
    exact procAnalyzers_cons_break fs root f sc i a rest st h1 h2 h3
  · intro fs root f sc a b st pa h1 hb h2 h3 h5
    rcases h5 with hdir | ⟨hnd, hfile⟩
    · refine ⟨⟨st.cands ++ [⟨sc, pjoin pa.path ("__init__"), pa⟩],
               aset (Locator.registerPkg fs pa.path (pjoin pa.path ("__init__")) st.disc)
                 sc (pjoin pa.path ("__init__"))⟩,
             pjoin pa.path ("__init__"), ?_, rfl⟩
      rw [procAnalyzers_cons_dir fs root f sc 0 a [b] st pa h1 h2 h3 hdir]
      rw [procAnalyzers_cons_discovered fs root f sc (0 + 1) b [] _ hb
            (by rw [aset_lookup_self]; rfl)]
      rw [procAnalyzers_nil]
      rfl
    · refine ⟨⟨st.cands ++ [⟨sc, pa.path, pa⟩],
               aset (if endswith pa.path (".py") then
                       aset st.disc pa.path (sdropRight pa.path 3)
                     else
                       aset st.disc pa.path pa.path)
                 sc pa.path⟩,
             pa.path, ?_, rfl⟩
      rw [procAnalyzers_cons_file fs root f sc 0 a [b] st pa h1 h2 h3 hnd hfile]
      rw [procAnalyzers_cons_discovered fs root f sc (0 + 1) b [] _ hb
            (by rw [aset_lookup_self]; rfl)]
      rw [procAnalyzers_nil]
      rfl

/-- C4 witness: the break conjunct on an extraction-failing strategy, and the
both-recognise conjunct on `fsOk` with the sidecar-less strategy configured
before `toyB`. -/
theorem c4_witness :
    Locator.procAnalyzers fsOk ("/plugs") ("a.py") ("/plugs/a.py") 0
        (toyNone :: [toyB]) ⟨[], []⟩ =
      .ok (⟨[], []⟩, [AEvent.validCheck 0, AEvent.extract 0]) ∧
    ∃ (st' : St) (pp : String),
      Locator.procAnalyzers fsOk ("/plugs") ("a.py") ("/plugs/a.py") 0
          [Analyzer.strategy, toyB] ⟨[], []⟩ =
        .ok (st', [AEvent.validCheck 0, AEvent.extract 0, AEvent.emit 0,
                   AEvent.validCheck 1]) ∧
      st'.cands = [] ++ [⟨"/plugs/a.py", pp, infoAlpha⟩] :=
  ⟨c4_precedence_amended.1 fsOk ("/plugs") ("a.py") ("/plugs/a.py") 0 toyNone
     [toyB] ⟨[], []⟩ rfl rfl rfl,
   c4_precedence_amended.2 fsOk ("/plugs") ("a.py") ("/plugs/a.py")
     Analyzer.strategy toyB ⟨[], []⟩ infoAlpha rfl rfl rfl rfl
     (Or.inr ⟨by decide, by decide⟩)⟩

/-! ### C6 -/

/-- After any prefix of non-recognising analyzers, an analyzer that
recognises the (not yet discovered) file but whose extraction returns no
usable info stops the per-file loop with the state unchanged: the events
never reach an analyzer index beyond the failing one and nothing is
emitted. -/
theorem procAnalyzers_failstop (fs : FS) (root f sc : String) (a : PAnalyzer)
    (rest : List PAnalyzer)
    (hv : a.isValidPlugin fs sc = .ok true)
    (hg : a.getInfoFor fs root f = .ok none) :
    ∀ (pre : List PAnalyzer) (i : Nat) (st : St),
      (∀ b ∈ pre, b.isValidPlugin fs sc = .ok false) →
      st.disc.lookup sc = none →
      ∃ evs,
        Locator.procAnalyzers fs root f sc i (pre ++ a :: rest) st = .ok (st, evs) ∧
        (∀ j, AEvent.validCheck j ∈ evs → i ≤ j ∧ j ≤ i + pre.length) ∧
        (∀ j, AEvent.extract j ∈ evs → j = i + pre.length) ∧
        (∀ j, AEvent.emit j ∉ evs) := by
  intro pre
  induction pre with
  | nil =>
    intro i st _ hd
    refine ⟨[AEvent.validCheck i, AEvent.extract i], ?_, ?_, ?_, ?_⟩
    · simpa using procAnalyzers_cons_break fs root f sc i a rest st hv hd hg
    · intro j hj
      simp at hj
      simp only [List.length_nil]
      omega
    · intro j hj
      simp at hj
      simp only [List.length_nil]
      omega
    · intro j
      simp
  | cons b pre ih =>
    intro i st hpre hd
    obtain ⟨evs', heq, hvc, hex, hem⟩ :=
      ih (i + 1) st (fun c hc => hpre c (List.mem_cons_of_mem b hc)) hd
    refine ⟨AEvent.validCheck i :: evs', ?_, ?_, ?_, ?_⟩
    · rw [List.cons_append,
         procAnalyzers_cons_invalid fs root f sc i b _ st
           (hpre b (List.mem_cons_self b _)),
         heq]
      rfl
    · intro j hj
      rcases List.mem_cons.mp hj with h0 | h0
      · simp at h0
        simp [h0, List.length_cons]
      · obtain ⟨ha, hb2⟩ := hvc j h0
        simp only [List.length_cons]
        omega
    · intro j hj
      rcases List.mem_cons.mp hj with h0 | h0
      · exact absurd h0 (by simp)
      · have := hex j h0
        simp only [List.length_cons]
        omega
    · intro j hj
      rcases List.mem_cons.mp hj with h0 | h0
      · exact absurd h0 (by simp)
      · exact hem j h0

/-- C6: when an analyzer recognised a file but extraction produced no usable
info (`plugin_info is None`), the file's processing returns with the state
unchanged (no candidate, no exception), no analyzer beyond the failing one
is touched, nothing is emitted, and discovery proceeds with the next file of
the listing. -/
theorem c6_extraction_failure : ∀ (fs : FS) (root f : String)
    (more : List String) (st : St) (pre : List PAnalyzer) (a : PAnalyzer)
    (rest : List PAnalyzer),
    (∀ b ∈ pre, b.isValidPlugin fs (pjoin root f) = .ok false) →
    a.isValidPlugin fs (pjoin root f) = .ok true →
    st.disc.lookup (pjoin root f) = none →
    a.getInfoFor fs root f = .ok none →
    ∃ evs,
      Locator.processFiles fs (pre ++ a :: rest) root (f :: more) st =
        (Locator.processFiles fs (pre ++ a :: rest) root more st).map
          (fun r => (r.1, (pjoin root f, evs) :: r.2)) ∧
      (∀ j, AEvent.validCheck j ∈ evs → j ≤ pre.length) ∧
      (∀ j, AEvent.extract j ∈ evs → j = pre.length) ∧
      (∀ j, AEvent.emit j ∉ evs) := by
  intro fs root f more st pre a rest hpre hv hd hg
  obtain ⟨evs, heq, hvc, hex, hem⟩ :=
    procAnalyzers_failstop fs root f (pjoin root f) a rest hv hg pre 0 st hpre hd
  refine ⟨evs, ?_, fun j hj => by have := (hvc j hj).2; omega,
         fun j hj => by have := hex j hj; omega, hem⟩
  simp only [Locator.processFiles, heq]

/-- C6 witness: a three-analyzer configuration where the first does not
recognise `/plugs/a.py`, the second recognises it but fails extraction, and
a third is configured after it. -/
theorem c6_witness :
    ∃ evs,
      Locator.processFiles fsOk [toyFalse, toyNone, toyB] ("/plugs")
          ["a.py"] ⟨[], []⟩ =
        (Locator.processFiles fsOk [toyFalse, toyNone, toyB] ("/plugs")
            [] ⟨[], []⟩).map
          (fun r => (r.1, (pjoin ("/plugs") ("a.py"), evs) :: r.2)) ∧
      (∀ j, AEvent.validCheck j ∈ evs → j ≤ 1) ∧
      (∀ j, AEvent.extract j ∈ evs → j = 1) ∧
      (∀ j, AEvent.emit j ∉ evs) :=
  c6_extraction_failure fsOk ("/plugs") ("a.py") [] ⟨[], []⟩ [toyFalse] toyNone
    [toyB]
    (by
      intro b hb
      rw [List.mem_singleton] at hb
      subst hb
      rfl)
    rfl rfl rfl

/-! ### C3 -/

/-- Every candidate appended by the per-file loop carries the name of a
successful extraction, so well-named analyzers preserve the invariant that
all accumulated candidates have non-empty names. -/
theorem procAnalyzers_names (fs : FS) (root f sc : String) :
    ∀ (l : List PAnalyzer), (∀ a ∈ l, WellNamed fs a) →
      ∀ (i : Nat) (st st' : St) (evs : List AEvent),
        Locator.procAnalyzers fs root f sc i l st = .ok (st', evs) →
        (∀ c ∈ st.cands, c.info.name ≠ "") →
        (∀ c ∈ st'.cands, c.info.name ≠ "") := by
  intro l
  induction l with
  | nil =>
    intro _ i st st' evs heq hst
    rw [procAnalyzers_nil] at heq
    simp at heq
    rcases heq with ⟨rfl, rfl⟩
    exact hst
  | cons a rest ih =>
    intro hwn i st st' evs heq hst
    have hwrest : ∀ b ∈ rest, WellNamed fs b :=
      fun b hb => hwn b (List.mem_cons_of_mem a hb)
    have hwa : WellNamed fs a := hwn a (List.mem_cons_self a rest)
    cases hv : a.isValidPlugin fs sc with
    | error e =>
      rw [procAnalyzers_cons_validError fs root f sc i a rest st e hv] at heq
      simp at heq
    | ok valid =>
      cases valid with
      | false =>
        rw [procAnalyzers_cons_invalid fs root f sc i a rest st hv] at heq
        obtain ⟨evs0, hrec, _⟩ :=
          exceptMap_ok_inv (fun l => AEvent.validCheck i :: l) heq
        exact ih hwrest (i + 1) st st' evs0 hrec hst
      | true =>
        cases hl : st.disc.lookup sc with
        | some v =>
          have hls : (st.disc.lookup sc).isSome = true := by rw [hl]; rfl
          rw [procAnalyzers_cons_discovered fs root f sc i a rest st hv hls] at heq
          obtain ⟨evs0, hrec, _⟩ :=
            exceptMap_ok_inv (fun l => AEvent.validCheck i :: l) heq
          exact ih hwrest (i + 1) st st' evs0 hrec hst
        | none =>
          cases hg : a.getInfoFor fs root f with
          | error e =>
            rw [procAnalyzers_cons_extractError fs root f sc i a rest st e hv hl hg]
              at heq
            simp at heq
          | ok o =>
            cases o with
            | none =>
              rw [procAnalyzers_cons_break fs root f sc i a rest st hv hl hg] at heq
              simp at heq
              rcases heq with ⟨rfl, rfl⟩
              exact hst
            | some pinfo =>
              have hname : pinfo.name ≠ "" := hwa root f pinfo hg
              cases hd : fs.isdir pinfo.path with
              | true =>
                rw [procAnalyzers_cons_dir fs root f sc i a rest st pinfo hv hl hg hd]
                  at heq
                obtain ⟨evs0, hrec, _⟩ :=
                  exceptMap_ok_inv
                    (fun l => AEvent.validCheck i :: AEvent.extract i ::
                      AEvent.emit i :: l) heq
                refine ih hwrest (i + 1) _ st' evs0 hrec ?_
                intro c hc
                rcases List.mem_append.mp hc with hcl | hcr
                · exact hst c hcl
                · rw [List.mem_singleton] at hcr
                  subst hcr
                  exact hname
              | false =>
                cases h5 : ((endswith pinfo.path (".py") && fs.isfile pinfo.path) ||
                    fs.isfile (pinfo.path ++ ".py")) with
                | true =>
                  rw [procAnalyzers_cons_file fs root f sc i a rest st pinfo hv hl hg
                        hd h5] at heq
                  obtain ⟨evs0, hrec, _⟩ :=
                    exceptMap_ok_inv
                      (fun l => AEvent.validCheck i :: AEvent.extract i ::
                        AEvent.emit i :: l) heq
                  refine ih hwrest (i + 1) _ st' evs0 hrec ?_
                  intro c hc
                  rcases List.mem_append.mp hc with hcl | hcr
                  · exact hst c hcl
                  · rw [List.mem_singleton] at hcr
                    subst hcr
                    exact hname
                | false =>
                  rw [procAnalyzers_cons_unresolvable fs root f sc i a rest st pinfo
                        hv hl hg hd h5] at heq
                  simp at heq
                  rcases heq with ⟨rfl, rfl⟩
                  exact hst

/-- The candidate-name invariant lifted through the file loop of one frame. -/
theorem processFiles_names (fs : FS) (analyzers : List PAnalyzer) (root : String)
    (hwn : ∀ a ∈ analyzers, WellNamed fs a) :
    ∀ (files : List String) (st st' : St) (tr : Trace),
      Locator.processFiles fs analyzers root files st = .ok (st', tr) →
      (∀ c ∈ st.cands, c.info.name ≠ "") →
      (∀ c ∈ st'.cands, c.info.name ≠ "") := by
  intro files
  induction files with
  | nil =>
    intro st st' tr heq hst
    rw [processFiles_nil] at heq
    simp at heq
    rcases heq with ⟨rfl, rfl⟩
    exact hst
  | cons f rest ih =>
    intro st st' tr heq hst
    cases hP : Locator.procAnalyzers fs root f (pjoin root f) 0 analyzers st with
    | error e =>
      rw [processFiles_cons_err fs analyzers root f rest st e hP] at heq
      simp at heq
    | ok p =>
      rcases p with ⟨st1, evs⟩
      rw [processFiles_cons_ok fs analyzers root f rest st st1 evs hP] at heq
      cases hrec : Locator.processFiles fs analyzers root rest st1 with
      | error e => rw [hrec] at heq; simp [Except.map] at heq
      | ok q =>
        rcases q with ⟨stR, trR⟩
        rw [hrec] at heq
        simp [Except.map] at heq
        obtain ⟨h1, _⟩ := heq
        cases h1
        exact ih st1 _ trR hrec
          (procAnalyzers_names fs root f (pjoin root f) analyzers hwn 0 st st1 evs
            hP hst)

/-- The candidate-name invariant lifted through the frame loop. -/
theorem processFrames_names (fs : FS) (analyzers : List PAnalyzer)
    (hwn : ∀ a ∈ analyzers, WellNamed fs a) :
    ∀ (frames : List Frame) (st st' : St) (tr : Trace),
      Locator.processFrames fs analyzers frames st = .ok (st', tr) →
      (∀ c ∈ st.cands, c.info.name ≠ "") →
      (∀ c ∈ st'.cands, c.info.name ≠ "") := by
  intro frames
  induction frames with
  | nil =>
    intro st st' tr heq hst
    rw [processFrames_nil] at heq
    simp at heq
    rcases heq with ⟨rfl, rfl⟩
    exact hst
  | cons fr rest ih =>
    intro st st' tr heq hst
    cases hF : Locator.processFiles fs analyzers fr.root fr.files st with
    | error e =>
      rw [processFrames_cons_err fs analyzers fr rest st e hF] at heq
      simp at heq
    | ok p =>
      rcases p with ⟨st1, tr1⟩
      rw [processFrames_cons_ok fs analyzers fr rest st st1 tr1 hF] at heq
      cases hrec : Locator.processFrames fs analyzers rest st1 with
      | error e => rw [hrec] at heq; simp [Except.map] at heq
      | ok q =>
        rcases q with ⟨stR, trR⟩
        rw [hrec] at heq
        simp [Except.map] at heq
        obtain ⟨h1, _⟩ := heq
        cases h1
        exact ih st1 _ trR hrec
          (processFiles_names fs analyzers fr.root hwn fr.files st st1 tr1 hF hst)

/-- The candidate-name invariant lifted through the place loop. -/
theorem processPlaces_names (fs : FS) (recursive : Bool)
    (analyzers : List PAnalyzer)
    (hwn : ∀ a ∈ analyzers, WellNamed fs a) :
    ∀ (places : List String) (st st' : St) (tr : Trace),
      Locator.processPlaces fs recursive analyzers places st = .ok (st', tr) →
      (∀ c ∈ st.cands, c.info.name ≠ "") →
      (∀ c ∈ st'.cands, c.info.name ≠ "") := by
  intro places
  induction places with
  | nil =>
    intro st st' tr heq hst
    rw [processPlaces_nil] at heq
    simp at heq
    rcases heq with ⟨rfl, rfl⟩
    exact hst
  | cons p rest ih =>
    intro st st' tr heq hst
    cases hdir : fs.isdir (abspath p) with
    | false =>
      rw [processPlaces_skip fs recursive analyzers p rest st hdir] at heq
      exact ih st st' tr heq hst
    | true =>
      cases hF : Locator.processFrames fs analyzers
          (walkFrames fs recursive (abspath p)) st with
      | error e =>
        rw [processPlaces_cons_err fs recursive analyzers p rest st e hdir hF]
          at heq
        simp at heq
      | ok q =>
        rcases q with ⟨st1, tr1⟩
        rw [processPlaces_cons_ok fs recursive analyzers p rest st st1 tr1 hdir hF]
          at heq
        cases hrec : Locator.processPlaces fs recursive analyzers rest st1 with
        | error e => rw [hrec] at heq; simp [Except.map] at heq
        | ok q2 =>
          rcases q2 with ⟨stR, trR⟩
          rw [hrec] at heq
          simp [Except.map] at heq
          obtain ⟨h1, _⟩ := heq
          cases h1
          exact ih st1 _ trR hrec
            (processFrames_names fs analyzers hwn _ st st1 tr1 hF hst)

/-- C3: with analyzers whose successful extraction always carries a non-empty
name, every candidate discovery returns has a non-empty metadata name; the
sidecar-less strategy is such an analyzer (its extraction wrapper discards
empty-name metadata), and a module with an absent name — or one declaring
the empty string — yields extraction `none`, hence zero candidates for that
file. -/
theorem c3_candidates_named :
    (∀ (fs : FS) (places : List String) (recursive : Bool)
        (analyzers : List PAnalyzer) (persist : List (String × String))
        (r : Locator.LocResult),
      (∀ a ∈ analyzers, WellNamed fs a) →
      Locator.locatePlugins fs places recursive analyzers persist = .ok r →
      ∀ c ∈ r.cands, c.info.name ≠ "") ∧
    (∀ fs : FS, WellNamed fs Analyzer.strategy) ∧
    (∀ (fs : FS) (root f : String) (m : PyModule),
      fs.loadPy (pjoin root f) = .ok m →
      (m.plugin_name = none ∨ m.plugin_name = some ("")) →
      Analyzer.strategy.getInfoFor fs root f = .ok none) := by
  have hwns : ∀ fs : FS, WellNamed fs Analyzer.strategy := by
    intro fs root f pinfo h
    simp only [Analyzer.strategy] at h
    cases hd : Analyzer.getInfosDictFromPlugin fs root f with
    | error e => rw [hd] at h; simp [Except.map] at h
    | ok q =>
      rw [hd] at h
      simp only [Except.map, Except.ok.injEq] at h
      unfold getInfoForPluginFromAnalyzer at h
      by_cases hn : q.1.name = ""
      · rw [if_pos hn] at h
        exact absurd h (by simp)
      · rw [if_neg hn] at h
        injection h with h2
        subst h2
        exact hn
  refine ⟨?_, hwns, ?_⟩
  · intro fs places recursive analyzers persist r hwn hloc c hc
    unfold Locator.locatePlugins Locator.locateCore at hloc
    cases hp : Locator.processPlaces fs recursive analyzers places ⟨[], []⟩ with
    | error e => rw [hp] at hloc; simp [Except.map] at hloc
    | ok q =>
      rw [hp] at hloc
      simp only [Except.map, Except.ok.injEq] at hloc
      subst hloc
      refine processPlaces_names fs recursive analyzers hwn places ⟨[], []⟩ q.1 q.2
        (by rw [hp]) ?_ c hc
      intro c0 hc0
      simp at hc0
  · intro fs root f m hl hnm
    simp only [Analyzer.strategy]
    by_cases hp : endswith (pjoin root f) (".py") = true
    · rcases hnm with h0 | h0 <;>
        simp [Analyzer.getInfosDictFromPlugin, Analyzer.loadModule, hp, hl,
          getInfoForPluginFromAnalyzer, h0, Except.map]
    · rw [Bool.not_eq_true] at hp
      simp [Analyzer.getInfosDictFromPlugin, Analyzer.loadModule, hp,
        getInfoForPluginFromAnalyzer, Except.map]

/-- C3 witness: on `fsEmptyName` (whose only module declares the empty-string
name) discovery with the sidecar-less strategy emits only non-empty-name
candidates (there are none), and both the empty and the absent name yield
extraction `none`. -/
theorem c3_witness :
    (∀ c ∈ rEmpty.cands, c.info.name ≠ "") ∧
    Analyzer.strategy.getInfoFor fsEmptyName ("/plugs") ("e.py") = .ok none := by
  constructor
  · exact c3_candidates_named.1 fsEmptyName (["/plugs"]) false [Analyzer.strategy]
      [] rEmpty
      (by
        intro a ha
        rw [List.mem_singleton] at ha
        subst ha
        exact c3_candidates_named.2.1 fsEmptyName)
      rfl
  · exact c3_candidates_named.2.2 fsEmptyName ("/plugs") ("e.py")
      { plugin_name := some ("") } rfl (Or.inr rfl)

/-! ### C5 -/

/-- With the sidecar-less strategy alone, a file whose path does not end in
`.py` passes through the analyzer loop untouched. -/
theorem procAnalyzers_strategy_nonpy (fs : FS) (root f sc : String) (i : Nat)
    (st : St) (h : endswith sc (".py") = false) :
    Locator.procAnalyzers fs root f sc i [Analyzer.strategy] st =
      .ok (st, [AEvent.validCheck i]) := by
  rw [procAnalyzers_cons_invalid fs root f sc i Analyzer.strategy [] st
        (isValidPlugin_not_py fs sc h),
      procAnalyzers_nil]
  rfl

theorem processFiles_strategy_nonpy (fs : FS) (root : String) :
    ∀ (files : List String) (st : St),
      (∀ f ∈ files, endswith (pjoin root f) (".py") = false) →
      ∃ tr, Locator.processFiles fs [Analyzer.strategy] root files st =
        .ok (st, tr) := by
  intro files
  induction files with
  | nil => intro st _; exact ⟨[], processFiles_nil fs _ root st⟩
  | cons f rest ih =>
    intro st h
    obtain ⟨tr, htr⟩ := ih st (fun g hg => h g (List.mem_cons_of_mem f hg))
    refine ⟨(pjoin root f, [AEvent.validCheck 0]) :: tr, ?_⟩
    rw [processFiles_cons_ok fs [Analyzer.strategy] root f rest st st
          [AEvent.validCheck 0]
          (procAnalyzers_strategy_nonpy fs root f (pjoin root f) 0 st
            (h f (List.mem_cons_self f rest))),
        htr]
    rfl

theorem processFrames_strategy_nonpy (fs : FS) :
    ∀ (frames : List Frame) (st : St),
      (∀ fr ∈ frames, ∀ f ∈ fr.files,
        endswith (pjoin fr.root f) (".py") = false) →
      ∃ tr, Locator.processFrames fs [Analyzer.strategy] frames st =
        .ok (st, tr) := by
  intro frames
  induction frames with
  | nil => intro st _; exact ⟨[], processFrames_nil fs _ st⟩
  | cons fr rest ih =>
    intro st h
    obtain ⟨tr1, h1⟩ := processFiles_strategy_nonpy fs fr.root fr.files st
      (h fr (List.mem_cons_self fr rest))
    obtain ⟨tr2, h2⟩ := ih st (fun g hg => h g (List.mem_cons_of_mem fr hg))
    refine ⟨tr1 ++ tr2, ?_⟩
    rw [processFrames_cons_ok fs [Analyzer.strategy] fr rest st st tr1 h1, h2]
    rfl

theorem processPlaces_strategy_nonpy (fs : FS) (recursive : Bool) :
    ∀ (places : List String) (st : St),
      (∀ p ∈ places, fs.isdir (abspath p) = true →
        ∀ fr ∈ walkFrames fs recursive (abspath p), ∀ f ∈ fr.files,
          endswith (pjoin fr.root f) (".py") = false) →
      ∃ tr, Locator.processPlaces fs recursive [Analyzer.strategy] places st =
        .ok (st, tr) := by
  intro places
  induction places with
  | nil => intro st _; exact ⟨[], processPlaces_nil fs recursive _ st⟩
  | cons p rest ih =>
    intro st h
    cases hdir : fs.isdir (abspath p) with
    | false =>
      obtain ⟨tr, htr⟩ := ih st (fun q hq => h q (List.mem_cons_of_mem p hq))
      exact ⟨tr, by
        rw [processPlaces_skip fs recursive [Analyzer.strategy] p rest st hdir]
        exact htr⟩
    | true =>
      obtain ⟨tr1, h1⟩ := processFrames_strategy_nonpy fs
        (walkFrames fs recursive (abspath p)) st
        (h p (List.mem_cons_self p rest) hdir)
      obtain ⟨tr2, h2⟩ := ih st (fun q hq => h q (List.mem_cons_of_mem p hq))
      refine ⟨tr1 ++ tr2, ?_⟩
      rw [processPlaces_cons_ok fs recursive [Analyzer.strategy] p rest st st tr1
            hdir h1,
          h2]
      rfl

/-- C5 counterexample: the claim says discovery never raises for unreadable
files; on `fsOther`, whose only entry is a `.py` file whose load raises a
non-`ImportError` exception (as an unreadable source file does), the whole
discovery pass raises instead of skipping the file. -/
theorem c5_counterexample :
    Locator.locatePlugins fsOther (["/plugs"]) false [Analyzer.strategy] [] =
      .error .uncaught := rfl

/-- C5 (amended): a configured place that is missing or not a directory is
skipped and discovery continues over the remaining places; discovery with
the sidecar-less strategy never raises over traversals containing only
non-`.py` files (hence also for empty directories); but a `.py` file whose
load raises a non-`ImportError` exception (e.g. an unreadable file) makes
discovery raise. -/
theorem c5_walk_errors :
    (∀ (fs : FS) (p : String) (places : List String) (recursive : Bool)
        (analyzers : List PAnalyzer) (persist : List (String × String)),
      fs.isdir (abspath p) = false →
      Locator.locatePlugins fs (p :: places) recursive analyzers persist =
        Locator.locatePlugins fs places recursive analyzers persist) ∧
    (∀ (fs : FS) (places : List String) (recursive : Bool)
        (persist : List (String × String)),
      (∀ p ∈ places, fs.isdir (abspath p) = true →
        ∀ fr ∈ walkFrames fs recursive (abspath p), ∀ f ∈ fr.files,
          endswith (pjoin fr.root f) (".py") = false) →
      ∃ tr, Locator.locatePlugins fs places recursive [Analyzer.strategy]
          persist = .ok ⟨[], 0, persist, tr⟩) := by
  constructor
  · intro fs p places recursive analyzers persist h
    unfold Locator.locatePlugins Locator.locateCore
    rw [processPlaces_skip fs recursive analyzers p places ⟨[], []⟩ h]
  · intro fs places recursive persist h
    obtain ⟨tr, htr⟩ := processPlaces_strategy_nonpy fs recursive places ⟨[], []⟩ h
    refine ⟨tr, ?_⟩
    unfold Locator.locatePlugins Locator.locateCore
    rw [htr]
    rfl

/-- C5 witness: a missing place is skipped on `fsOk`, and a pass over a text
file plus an empty directory returns zero candidates without raising. -/
theorem c5_witness :
    Locator.locatePlugins fsOk (["/nowhere", "/plugs"]) false [Analyzer.strategy]
        [] =
      Locator.locatePlugins fsOk (["/plugs"]) false [Analyzer.strategy] [] ∧
    ∃ tr, Locator.locatePlugins fsTxt (["/plugs", "/empty"]) false
        [Analyzer.strategy] [] = .ok ⟨[], 0, [], tr⟩ :=
  ⟨c5_walk_errors.1 fsOk ("/nowhere") (["/plugs"]) false [Analyzer.strategy] []
     (by decide),
   c5_walk_errors.2 fsTxt (["/plugs", "/empty"]) false [] (by decide)⟩

/-! ### C8 -/

/-- C8: discovery is a pure function of the file system and configuration —
the only instance state it touches, `self._discovered_plugins`, is written
but never read — so a second pass right after a first yields the same
candidate sequence and count, and each pass returns `len(_candidates)` as
its count. -/
theorem c8_idempotent : ∀ (fs : FS) (places : List String) (recursive : Bool)
    (analyzers : List PAnalyzer) (persist : List (String × String))
    (r : Locator.LocResult),
    Locator.locatePlugins fs places recursive analyzers persist = .ok r →
    ∃ r2, Locator.locatePlugins fs places recursive analyzers
        r.discoveredPlugins = .ok r2 ∧
      r2.cands = r.cands ∧ r2.count = r.count ∧ r.count = r.cands.length := by
  intro fs places recursive analyzers persist r h
  unfold Locator.locatePlugins at h ⊢
  cases hc : Locator.locateCore fs places recursive analyzers with
  | error e => rw [hc] at h; simp [Except.map] at h
  | ok q =>
    rw [hc] at h
    simp only [Except.map, Except.ok.injEq] at h
    subst h
    exact ⟨_, rfl, rfl, rfl, rfl⟩

/-- C8 witness: running the pass over `fsOk` again, starting from the
persistent discovered-map the first pass left behind, reproduces the same
candidates and count. -/
theorem c8_witness :
    ∃ r2, Locator.locatePlugins fsOk (["/plugs"]) false [Analyzer.strategy]
        rOk.discoveredPlugins = .ok r2 ∧
      r2.cands = rOk.cands ∧ r2.count = rOk.count ∧
      rOk.count = rOk.cands.length :=
  c8_idempotent fsOk (["/plugs"]) false [Analyzer.strategy] [] rOk rfl

/-! ### C10 -/

/-- A single total analyzer (its checks return without raising) processes any
file without raising, and the first event is always its validity check. -/
theorem procAnalyzers_single_total (fs : FS) (root f sc : String) (st : St)
    (a : PAnalyzer)
    (hv : ∃ b, a.isValidPlugin fs sc = .ok b)
    (hg : ∃ o, a.getInfoFor fs root f = .ok o) :
    ∃ st' evs, Locator.procAnalyzers fs root f sc 0 [a] st = .ok (st', evs) ∧
      evs.head? = some (AEvent.validCheck 0) := by
  obtain ⟨b, hb⟩ := hv
  cases b with
  | false =>
    refine ⟨st, [AEvent.validCheck 0], ?_, rfl⟩
    rw [procAnalyzers_cons_invalid fs root f sc 0 a [] st hb, procAnalyzers_nil]
    rfl
  | true =>
    cases hl : st.disc.lookup sc with
    | some v =>
      refine ⟨st, [AEvent.validCheck 0], ?_, rfl⟩
      rw [procAnalyzers_cons_discovered fs root f sc 0 a [] st hb (by rw [hl]; rfl),
          procAnalyzers_nil]
      rfl
    | none =>
      obtain ⟨o, ho⟩ := hg
      cases o with
      | none =>
        exact ⟨st, [AEvent.validCheck 0, AEvent.extract 0],
          procAnalyzers_cons_break fs root f sc 0 a [] st hb hl ho, rfl⟩
      | some pinfo =>
        cases hd : fs.isdir pinfo.path with
        | true =>
          refine ⟨⟨st.cands ++ [⟨sc, pjoin pinfo.path ("__init__"), pinfo⟩],
                   aset (Locator.registerPkg fs pinfo.path
                       (pjoin pinfo.path ("__init__")) st.disc)
                     sc (pjoin pinfo.path ("__init__"))⟩,
            [AEvent.validCheck 0, AEvent.extract 0, AEvent.emit 0], ?_, rfl⟩
          rw [procAnalyzers_cons_dir fs root f sc 0 a [] st pinfo hb hl ho hd,
              procAnalyzers_nil]
          rfl
        | false =>
          cases h5 : ((endswith pinfo.path (".py") && fs.isfile pinfo.path) ||
              fs.isfile (pinfo.path ++ ".py")) with
          | true =>
            refine ⟨⟨st.cands ++ [⟨sc, pinfo.path, pinfo⟩],
                     aset (if endswith pinfo.path (".py") then
                             aset st.disc pinfo.path (sdropRight pinfo.path 3)
                           else
                             aset st.disc pinfo.path pinfo.path)
                       sc pinfo.path⟩,
              [AEvent.validCheck 0, AEvent.extract 0, AEvent.emit 0], ?_, rfl⟩
            rw [procAnalyzers_cons_file fs root f sc 0 a [] st pinfo hb hl ho hd h5,
                procAnalyzers_nil]
            rfl
          | false =>
            exact ⟨st, [AEvent.validCheck 0, AEvent.extract 0],
              procAnalyzers_cons_unresolvable fs root f sc 0 a [] st pinfo hb hl ho
                hd h5, rfl⟩

theorem processFiles_total (fs : FS) (root : String) (a : PAnalyzer)
    (hv : ∀ p, ∃ b, a.isValidPlugin fs p = .ok b)
    (hg : ∀ rt f, ∃ o, a.getInfoFor fs rt f = .ok o) :
    ∀ (files : List String) (st : St),
      ∃ st' tr, Locator.processFiles fs [a] root files st = .ok (st', tr) ∧
        tr.map Prod.fst = files.map (fun f => pjoin root f) ∧
        ∀ x ∈ tr, x.2.head? = some (AEvent.validCheck 0) := by
  intro files
  induction files with
  | nil =>
    intro st
    exact ⟨st, [], processFiles_nil fs [a] root st, rfl, by simp⟩
  | cons f rest ih =>
    intro st
    obtain ⟨st1, evs, h1, hhd⟩ :=
      procAnalyzers_single_total fs root f (pjoin root f) st a (hv _) (hg root f)
    obtain ⟨st2, tr, h2, hmap, hall⟩ := ih st1
    refine ⟨st2, (pjoin root f, evs) :: tr, ?_, ?_, ?_⟩
    · rw [processFiles_cons_ok fs [a] root f rest st st1 evs h1, h2]
      rfl
    · simp [hmap]
    · intro x hx
      rcases List.mem_cons.mp hx with h0 | h0
      · subst h0
        exact hhd
      · exact hall x h0

/-- C10: a non-recursive pass over one search directory offers to the
analyzer exactly the directory's immediate listing entries joined onto the
directory path — subdirectory entries included, each passed to
`isValidPlugin` like any candidate file (every visited path's first recorded
event is the index-0 validity check). -/
theorem c10_nonrecursive_offers : ∀ (fs : FS) (d : String) (a : PAnalyzer)
    (persist : List (String × String)),
    fs.isdir (abspath d) = true →
    (∀ p, ∃ b, a.isValidPlugin fs p = .ok b) →
    (∀ rt f, ∃ o, a.getInfoFor fs rt f = .ok o) →
    ∃ res, Locator.locatePlugins fs [d] false [a] persist = .ok res ∧
      res.trace.map Prod.fst =
        (fs.listdir (abspath d)).map (fun e => pjoin (abspath d) e) ∧
      (∀ e ∈ fs.listdir (abspath d),
        pjoin (abspath d) e ∈ res.trace.map Prod.fst) ∧
      ∀ x ∈ res.trace, x.2.head? = some (AEvent.validCheck 0) := by
  intro fs d a persist hdir hv hg
  obtain ⟨st', tr, h1, hmap, hall⟩ :=
    processFiles_total fs (abspath d) a hv hg (fs.listdir (abspath d)) ⟨[], []⟩
  have hwf : walkFrames fs false (abspath d) =
      [⟨abspath d, [], fs.listdir (abspath d)⟩] := rfl
  have hframes : Locator.processFrames fs [a] (walkFrames fs false (abspath d))
      ⟨[], []⟩ = .ok (st', tr ++ []) := by
    rw [hwf,
        processFrames_cons_ok fs [a] ⟨abspath d, [], fs.listdir (abspath d)⟩ []
          ⟨[], []⟩ st' tr h1,
        processFrames_nil]
    rfl
  have hplaces : Locator.processPlaces fs false [a] [d] ⟨[], []⟩ =
      .ok (st', (tr ++ []) ++ []) := by
    rw [processPlaces_cons_ok fs false [a] d [] ⟨[], []⟩ st' (tr ++ []) hdir
          hframes,
        processPlaces_nil]
    rfl
  refine ⟨⟨st'.cands, st'.cands.length, updateMap persist st'.disc,
          (tr ++ []) ++ []⟩, ?_, ?_, ?_, ?_⟩
  · unfold Locator.locatePlugins Locator.locateCore
    rw [hplaces]
    rfl
  · simpa using hmap
  · intro e he
    simp only [List.append_nil]
    rw [hmap]
    exact List.mem_map_of_mem _ he
  · intro x hx
    simp only [List.append_nil] at hx
    exact hall x hx

/-- C10 witness: the theorem applied to `fsMix`, whose listing holds a plugin
file, a subdirectory and a text file, with the total analyzer `toyB`. -/
theorem c10_witness :
    ∃ res, Locator.locatePlugins fsMix (["/plugs"]) false [toyB] [] = .ok res ∧
      res.trace.map Prod.fst =
        (fsMix.listdir (abspath ("/plugs"))).map
          (fun e => pjoin (abspath ("/plugs")) e) ∧
      (∀ e ∈ fsMix.listdir (abspath ("/plugs")),
        pjoin (abspath ("/plugs")) e ∈ res.trace.map Prod.fst) ∧
      ∀ x ∈ res.trace, x.2.head? = some (AEvent.validCheck 0) :=
  c10_nonrecursive_offers fsMix ("/plugs") toyB [] (by decide)
    (fun p => ⟨true, rfl⟩)
    (fun rt f => ⟨some { name := "Beta", path := pjoin rt f }, rfl⟩)

end YapsyNoSidecar
